import Mathlib

/-!
Shallow embedding of the EPUB ingestion/indexing core of the
`wgc-epub-reader` repository (Go backend, `backend/store.go`), together
with theorems settling the frozen claims about its specification.

Conventions of the embedding:
* Go strings are modelled by Lean `String` and processed at rune (`Char`)
  granularity; every input handled by the program is a sequence of whole
  runes, where Go's byte indices always fall on rune boundaries of the
  substrings being matched, so the two views agree.
* Go's standard-library helpers used by the source (`path.Clean`,
  `path.Join`, `path.Dir`, `strings.Split`, `strings.Index`,
  `strings.Contains`, `strings.TrimSpace`, `strings.ReplaceAll`,
  `crypto/sha1`, `encoding/hex`) are modelled by executable Lean
  functions following their documented semantics.
* XML unmarshalling (`encoding/xml`) is not re-implemented; the two
  parse steps of the source are passed in as explicit parse functions
  (`String → Option _`), and the one piece of unmarshalling semantics a
  claim depends on (an absent element leaves the zero value `""`) is
  modelled by `dcMetadataOf`.
* File I/O is modelled by a finite map from extracted-archive-relative
  paths to file contents (`FS`).
-/

set_option maxRecDepth 100000

namespace EpubReader

/-! ## String helpers (models of Go `strings` functions) -/

/-- Splits a character list at every occurrence of the character `c`.
Model of Go `strings.Split(s, sep)` for a one-rune separator: the result
always has one more part than there are separators, and parts may be
empty. -/
def splitOnChar (c : Char) : List Char → List (List Char)
  | [] => [[]]
  | x :: xs =>
    if x = c then [] :: splitOnChar c xs
    else
      match splitOnChar c xs with
      | [] => [[x]]
      | h :: t => (x :: h) :: t

/-- First index at which `sub` occurs in `s`, if any.  Model of Go
`strings.Index` (at rune granularity; an empty `sub` occurs at 0). -/
def strIndex (s sub : List Char) : Option Nat :=
  if sub.isPrefixOf s then some 0
  else
    match s with
    | [] => none
    | _ :: t => (strIndex t sub).map Nat.succ

/-- Model of Go `strings.Contains`. -/
def strContains (s sub : String) : Bool :=
  (strIndex s.data sub.data).isSome

/-- Model of Go `unicode.IsSpace`: the Latin-1 white space characters
together with the Unicode space separators. -/
def goIsSpace (c : Char) : Bool :=
  c = ' ' || c = '\t' || c = '\n' || (c.toNat = 11) || (c.toNat = 12) ||
  c = '\r' || (c.toNat = 0x85) || (c.toNat = 0xA0) ||
  (c.toNat = 0x1680) || (0x2000 ≤ c.toNat && c.toNat ≤ 0x200A) ||
  (c.toNat = 0x2028) || (c.toNat = 0x2029) || (c.toNat = 0x202F) ||
  (c.toNat = 0x205F) || (c.toNat = 0x3000)

/-- Model of Go `strings.TrimSpace`. -/
def goTrimSpace (s : String) : String :=
  String.mk (((s.data.dropWhile goIsSpace).reverse.dropWhile goIsSpace).reverse)

/-- Function `between s a b` from `backend/store.go`: locate the first
occurrence of `a` in `s`, then return everything up to the next
occurrence of `b`; empty string when either marker is missing. -/
def between (s a b : String) : String :=
  match strIndex s.data a.data with
  | none => ""
  | some i =>
    let s2 := s.data.drop (i + a.data.length)
    match strIndex s2 b.data with
    | none => ""
    | some j => String.mk (s2.take j)

/-- Character filter behind `stripTags`: drop everything between `<` and
`>` (the brackets included), tracking the in-tag state. -/
def stripTagsAux : List Char → Bool → List Char
  | [], _ => []
  | c :: rest, inTag =>
    if c = '<' then stripTagsAux rest true
    else if c = '>' then stripTagsAux rest false
    else if inTag then stripTagsAux rest inTag
    else c :: stripTagsAux rest inTag

/-- Function `stripTags` from `backend/store.go`: delete tag markup, replace
non-breaking spaces (U+00A0) by plain spaces, trim surrounding white
space. -/
def stripTags (s : String) : String :=
  goTrimSpace
    (String.mk ((stripTagsAux s.data false).map
      (fun c => if c.toNat = 0xA0 then ' ' else c)))

/-! ## Path resolution (models of Go `path.Clean`, `path.Join`, `path.Dir`) -/

/-- Stack-based segment normalization implementing the documented rules
of Go `path.Clean`: empty and `.` segments are dropped, `..` pops a
preceding non-`..` segment, a `..` that cannot pop is kept for relative
paths and dropped at the root of rooted paths.  `stack` holds the
output segments in reverse order. -/
def cleanSegs (rooted : Bool) : List (List Char) → List (List Char) → List (List Char)
  | [], stack => stack.reverse
  | seg :: rest, stack =>
    if seg = [] ∨ seg = ['.'] then cleanSegs rooted rest stack
    else if seg = ['.', '.'] then
      match stack with
      | top :: stk =>
        if top = ['.', '.'] then cleanSegs rooted rest (['.', '.'] :: top :: stk)
        else cleanSegs rooted rest stk
      | [] =>
        if rooted then cleanSegs rooted rest []
        else cleanSegs rooted rest [['.', '.']]
    else cleanSegs rooted rest (seg :: stack)

/-- Whether a path string is rooted (starts with a slash). -/
def isRooted (p : String) : Bool :=
  match p.data with
  | '/' :: _ => true
  | _ => false

/-- The normalized segment list of a path. -/
def cleanParts (p : String) : List (List Char) :=
  cleanSegs (isRooted p) (splitOnChar '/' p.data) []

/-- Join segments with `/` separators. -/
def joinSegs : List (List Char) → List Char
  | [] => []
  | [s] => s
  | s :: rest => s ++ '/' :: joinSegs rest

/-- Reassemble normalized segments into a path string. -/
def renderClean (rooted : Bool) (out : List (List Char)) : String :=
  if rooted then String.mk ('/' :: joinSegs out)
  else if out = [] then "." else String.mk (joinSegs out)

/-- Model of Go `path.Clean`. -/
def pathClean (p : String) : String :=
  if p = "" then "." else renderClean (isRooted p) (cleanParts p)

/-- Model of Go `path.Join` for two elements: empty elements are
skipped, the remainder joined with `/` and cleaned; all-empty input
yields the empty string. -/
def pathJoin2 (a b : String) : String :=
  if a = "" ∧ b = "" then ""
  else if a = "" then pathClean b
  else pathClean (a ++ "/" ++ b)

/-- Function `normJoin` from `backend/store.go`: empty relative reference
returns the base unchanged; otherwise the cleaned join of base and
reference. -/
def normJoin (base rel : String) : String :=
  if rel = "" then base else pathClean (pathJoin2 base rel)

/-- Index of the last occurrence of `c` in `l`, if any. -/
def lastIndexOf (l : List Char) (c : Char) : Option Nat :=
  (l.reverse.findIdx? (· = c)).map (fun j => l.length - 1 - j)

/-- Model of Go `path.Dir`: everything up to and including the final
slash, cleaned; `.` when there is no slash. -/
def pathDir (p : String) : String :=
  match lastIndexOf p.data '/' with
  | none => pathClean ""
  | some i => pathClean (String.mk (p.data.take (i + 1)))

example : pathClean "OEBPS/" = "OEBPS" := by decide
example : pathClean "a/b/../../.." = ".." := by decide
example : pathClean "/../a//b/./c" = "/a/b/c" := by decide
example : pathClean "" = "." := by decide
example : pathClean "/" = "/" := by decide
example : normJoin "OEBPS" "chap1.xhtml" = "OEBPS/chap1.xhtml" := by decide
example : normJoin "OEBPS" "" = "OEBPS" := by decide
example : normJoin "OEBPS" "../../x" = "../x" := by decide
example : pathDir "OEBPS/content.opf" = "OEBPS" := by decide
example : pathDir "content.opf" = "." := by decide

/-! ## SHA-1 (model of Go `crypto/sha1`) and hex encoding

The source derives the book identifier as
`hex.EncodeToString(sha1(filename + "-" + size + "-" + unixNano))[:12]`.
SHA-1 is modelled byte-for-byte from FIPS 180-1 (the behaviour of the
Go standard library), on `Nat` with explicit reduction modulo 2^32. -/

/-- UTF-8 encoding of one character (Go strings are UTF-8 byte
sequences; `io.WriteString` writes exactly these bytes). -/
def utf8Char (c : Char) : List Nat :=
  let n := c.toNat
  if n < 0x80 then [n]
  else if n < 0x800 then
    [0xC0 ||| (n >>> 6), 0x80 ||| (n &&& 0x3F)]
  else if n < 0x10000 then
    [0xE0 ||| (n >>> 12), 0x80 ||| ((n >>> 6) &&& 0x3F), 0x80 ||| (n &&& 0x3F)]
  else
    [0xF0 ||| (n >>> 18), 0x80 ||| ((n >>> 12) &&& 0x3F),
     0x80 ||| ((n >>> 6) &&& 0x3F), 0x80 ||| (n &&& 0x3F)]

/-- UTF-8 bytes of a string. -/
def utf8Bytes (s : String) : List Nat :=
  (s.data.map utf8Char).flatten

/-- Left rotation of a 32-bit word. -/
def rotl32 (n x : Nat) : Nat :=
  ((x <<< n) ||| (x >>> (32 - n))) % 4294967296

/-- The `k` bytes of `n`, big-endian. -/
def beBytes (k n : Nat) : List Nat :=
  (List.range k).map (fun i => (n >>> (8 * (k - 1 - i))) % 256)

/-- SHA-1 message padding: a `0x80` byte, zeros to 56 mod 64, then the
bit length in 8 big-endian bytes. -/
def sha1Pad (msg : List Nat) : List Nat :=
  msg ++ 0x80 :: (List.replicate ((120 - ((msg.length + 1) % 64)) % 64) 0
    ++ beBytes 8 (8 * msg.length))

/-- Fuel-driven worker for `toBlocks` (structural recursion on the
fuel, so that the kernel can evaluate it; the fuel bound is always
sufficient because each step consumes at least one byte). -/
def toBlocksAux : Nat → List Nat → List (List Nat)
  | 0, _ => []
  | fuel + 1, l => if l = [] then [] else l.take 64 :: toBlocksAux fuel (l.drop 64)

/-- Split a byte list into 64-byte blocks. -/
def toBlocks (l : List Nat) : List (List Nat) :=
  toBlocksAux (l.length + 1) l

/-- The sixteen 32-bit big-endian words of one 64-byte block. -/
def wordsOf (block : List Nat) : List Nat :=
  (List.range 16).map (fun i =>
    ((block.getD (4 * i) 0) <<< 24) ||| ((block.getD (4 * i + 1) 0) <<< 16) |||
    ((block.getD (4 * i + 2) 0) <<< 8) ||| (block.getD (4 * i + 3) 0))

/-- Extend sixteen schedule words to eighty. -/
def sha1Extend (w16 : List Nat) : List Nat :=
  (List.range 64).foldl
    (fun w _ =>
      w ++ [rotl32 1 ((w.getD (w.length - 3) 0) ^^^ (w.getD (w.length - 8) 0) ^^^
        (w.getD (w.length - 14) 0) ^^^ (w.getD (w.length - 16) 0))])
    w16

/-- The SHA-1 round function. -/
def sha1F (i b c d : Nat) : Nat :=
  if i < 20 then (b &&& c) ||| ((b ^^^ 0xFFFFFFFF) &&& d)
  else if i < 40 then b ^^^ c ^^^ d
  else if i < 60 then (b &&& c) ||| (b &&& d) ||| (c &&& d)
  else b ^^^ c ^^^ d

/-- The SHA-1 round constants. -/
def sha1K (i : Nat) : Nat :=
  if i < 20 then 0x5A827999 else if i < 40 then 0x6ED9EBA1
  else if i < 60 then 0x8F1BBCDC else 0xCA62C1D6

/-- Eighty compression rounds over the schedule `w`. -/
def sha1Rounds (w : List Nat) (st : Nat × Nat × Nat × Nat × Nat) :
    Nat × Nat × Nat × Nat × Nat :=
  w.enum.foldl
    (fun st p =>
      let (a, b, c, d, e) := st
      let temp := (rotl32 5 a + sha1F p.1 b c d + e + sha1K p.1 + p.2) % 4294967296
      (temp, a, rotl32 30 b, c, d))
    st

/-- Process one 64-byte block into the running hash state. -/
def sha1Block (h : Nat × Nat × Nat × Nat × Nat) (block : List Nat) :
    Nat × Nat × Nat × Nat × Nat :=
  let (a, b, c, d, e) := sha1Rounds (sha1Extend (wordsOf block)) h
  ((h.1 + a) % 4294967296, (h.2.1 + b) % 4294967296, (h.2.2.1 + c) % 4294967296,
   (h.2.2.2.1 + d) % 4294967296, (h.2.2.2.2 + e) % 4294967296)

/-- The 20-byte SHA-1 digest of a byte sequence. -/
def sha1Bytes (msg : List Nat) : List Nat :=
  let h := (toBlocks (sha1Pad msg)).foldl sha1Block
    (0x67452301, 0xEFCDAB89, 0x98BADCFE, 0x10325476, 0xC3D2E1F0)
  beBytes 4 h.1 ++ beBytes 4 h.2.1 ++ beBytes 4 h.2.2.1 ++
    beBytes 4 h.2.2.2.1 ++ beBytes 4 h.2.2.2.2

/-- One lowercase hexadecimal digit. -/
def hexDigitChar (n : Nat) : Char :=
  "0123456789abcdef".data.getD n '0'

/-- Lowercase hex encoding of a byte list (model of Go
`hex.EncodeToString`). -/
def hexChars : List Nat → List Char
  | [] => []
  | b :: rest => hexDigitChar (b / 16) :: hexDigitChar (b % 16) :: hexChars rest

/-- Identifier derivation in `ingest`, from `backend/store.go`: the first
12 hex characters of `sha1(filename + "-" + size + "-" + unixNano)`. -/
def idOf (filename : String) (size time : Nat) : String :=
  String.mk ((hexChars (sha1Bytes
    (utf8Bytes (filename ++ "-" ++ toString size ++ "-" ++ toString time)))).take 12)

example :
    String.mk (hexChars (sha1Bytes (utf8Bytes "abc"))) =
      "a9993e364706816aba3e25717850c26c9cd0d89d" := by decide

/-! ## EPUB data model (structures from `backend/store.go`) -/

/-- Manifest item: `OPFItem` from `backend/store.go`. -/
structure OPFItem where
  id : String
  href : String
  mediaType : String
deriving DecidableEq, Repr

/-- Spine reference: `OPFItemref` from `backend/store.go`. -/
structure OPFItemref where
  idref : String
deriving DecidableEq, Repr

/-- Dublin-Core metadata: `OPFMetadata` from `backend/store.go`. -/
structure OPFMetadata where
  title : String
  creator : String
deriving DecidableEq, Repr

/-- Parsed package document: `OPFPackage` from `backend/store.go`. -/
structure OPFPackage where
  meta : OPFMetadata
  manifest : List OPFItem
  spine : List OPFItemref
deriving DecidableEq, Repr

/-- Navigation entry: `NavItem` from `backend/store.go`. -/
structure NavItem where
  href : String
  text : String
deriving DecidableEq, Repr

/-- Container descriptor: `containerXML` from `backend/store.go`, keeping
the `full-path` attribute of each declared rootfile. -/
structure ContainerXML where
  rootfiles : List String
deriving DecidableEq, Repr

/-- Catalog record: `BookInfo` from `backend/store.go` (the on-disk
`RootFS` field is the identifier-named directory and carries no further
structure here). -/
structure BookInfo where
  id : String
  title : String
  author : String
  rootFile : String
  opf : OPFPackage
  toc : List NavItem
deriving DecidableEq, Repr

/-- Spine response row: `SpineItem` from `backend/store.go`. -/
structure SpineItem where
  idref : String
  href : String
  mediaType : String
  title : String
deriving DecidableEq, Repr

/-- Model of Go `encoding/xml` unmarshalling of `OPFMetadata`: a present
`dc:title`/`dc:creator` element fills the field with its character data,
an absent element leaves the string zero value `""`; absence is never an
error. -/
def dcMetadataOf (title? creator? : Option String) : OPFMetadata :=
  ⟨title?.getD "", creator?.getD ""⟩

/-- The extracted archive tree, as a finite map from archive-root
relative slash paths to file contents. -/
structure FS where
  files : List (String × String)
deriving DecidableEq, Repr

/-- Model of reading a file from the extracted tree (`os.ReadFile`
under the unpacked root): `none` is a read error. -/
def FS.read (fs : FS) (p : String) : Option String :=
  (fs.files.find? (fun kv => kv.1 = p)).map (·.2)

/-- Failure cases of ingestion, from the error returns in
`backend/store.go` (`ioErr` stands for the pre-parse disk failures:
`MkdirAll`, `Create`, `Copy`, and `unzipFile` errors). -/
inductive IngestErr where
  | ioErr
  | missingContainer
  | malformedContainer
  | noRootfile
  | opfRead
  | opfXml
deriving DecidableEq, Repr

/-! ## EPUB helpers from `backend/store.go` -/

/-- Function `findRootfile` from `backend/store.go`: read
`META-INF/container.xml`, XML-parse it (`parseContainer` stands for
`xml.Unmarshal` into `containerXML`), and return the `full-path` of the
first rootfile; error when the file is unreadable, the XML is
malformed, or no rootfile is declared. -/
def findRootfile (fs : FS) (parseContainer : String → Option ContainerXML) :
    Except IngestErr String :=
  match fs.read "META-INF/container.xml" with
  | none => .error .missingContainer
  | some data =>
    match parseContainer data with
    | none => .error .malformedContainer
    | some c =>
      match c.rootfiles with
      | [] => .error .noRootfile
      | r :: _ => .ok r

/-- Function `findNavItem` from `backend/store.go`: collect manifest hrefs
containing `"nav"` or `"toc"`, return a shortest one (the source sorts
with Go's unstable `sort.Slice` on length and takes the head, so among
equal-length candidates the choice is unspecified; this model keeps the
earliest shortest candidate, which is one of the possible outcomes),
or `""` when there is no candidate. -/
def findNavItem (p : OPFPackage) : String :=
  let candidates := p.manifest.filterMap (fun it =>
    if strContains it.href "nav" || strContains it.href "toc" then some it.href
    else none)
  match candidates with
  | [] => ""
  | c :: cs => cs.foldl (fun best x => if x.length < best.length then x else best) c

/-- Function `extractNav` from `backend/store.go`, the per-file part: split the
navigation document on newlines and scan each line for an anchor. -/
def extractNav (t : String) : List NavItem :=
  ((splitOnChar '\n' t.data).map String.mk).foldl
    (fun items line =>
      let line := goTrimSpace line
      if !strContains line "<a " then items
      else
        let href := between line "href=\"" "\""
        let text := stripTags line
        if href ≠ "" ∧ text ≠ "" then items ++ [⟨href, text⟩] else items)
    []

/-- Per-line navigation extraction, stated as the specification words
it: on a line containing an anchor-opening tag, take the first
`href="..."` value and the tag-stripped visible text, and emit the pair
exactly when both are non-empty. -/
def lineEntry (line : String) : Option NavItem :=
  let l := goTrimSpace line
  if strContains l "<a " then
    let href := between l "href=\"" "\""
    let text := stripTags l
    if href ≠ "" ∧ text ≠ "" then some ⟨href, text⟩ else none
  else none

/-! ## Ingestion and the catalog -/

/-- The Go map lookup `itemsByID[sp.IDRef]` in `GetSpine`: the map is
built by inserting manifest items in order (later duplicates
overwrite), and a missing key yields the zero value. -/
def itemsByID (manifest : List OPFItem) : String → OPFItem :=
  manifest.foldl (fun m it => fun k => if k = it.id then it else m k)
    (fun _ => ⟨"", "", ""⟩)

/-- One row of the `GetSpine` response: the loop body of `GetSpine` in
`backend/store.go`. -/
def spineRow (b : BookInfo) (sp : OPFItemref) : SpineItem :=
  let it := itemsByID b.opf.manifest sp.idref
  ⟨sp.idref, normJoin (pathDir b.rootFile) it.href, it.mediaType, ""⟩

/-- Handler `GetSpine` from `backend/store.go`: one row per spine reference,
with the href joined onto the package document's directory at read
time. -/
def getSpine (b : BookInfo) : List SpineItem :=
  b.opf.spine.map (spineRow b)

/-- The complete catalog record assembled at the end of `ingest` in
`backend/store.go`: trimmed title/author, the rootfile path, the parsed
package, and the TOC (empty when no nav candidate exists, or when the
nav document cannot be read). -/
def builtInfo (fs : FS) (filename : String) (size time : Nat)
    (rootfile : String) (opf : OPFPackage) : BookInfo :=
  { id := idOf filename size time,
    title := goTrimSpace opf.meta.title,
    author := goTrimSpace opf.meta.creator,
    rootFile := rootfile, opf := opf,
    toc :=
      if findNavItem opf = "" then []
      else ((fs.read (normJoin (pathDir rootfile) (findNavItem opf))).map
        extractNav).getD [] }

/-- Method `ingest` from `backend/store.go`, the pure pipeline after the
archive has been written and unpacked: locate the rootfile, parse the
package document (`parseOPF` stands for `xml.Unmarshal` into
`OPFPackage`), extract the TOC when a nav candidate exists, and build
the complete catalog record. -/
def ingestCore (parseContainer : String → Option ContainerXML)
    (parseOPF : String → Option OPFPackage) (fs : FS)
    (filename : String) (size time : Nat) : Except IngestErr BookInfo := do
  let rootfile ← findRootfile fs parseContainer
  let opf ← match fs.read rootfile with
    | none => Except.error IngestErr.opfRead
    | some d =>
      match parseOPF d with
      | none => Except.error IngestErr.opfXml
      | some p => Except.ok p
  Except.ok (builtInfo fs filename size time rootfile opf)

/-- The in-memory catalog (`Store.books`): a map from identifier to
record, modelled as an association list with Go-map insert semantics. -/
abbrev Catalog := List (String × BookInfo)

/-- Assignment `s.books[id] = info`: replace an existing binding or add a new
one (Go map assignment semantics on an association list with unique
keys). -/
def catInsert (cat : Catalog) (id : String) (b : BookInfo) : Catalog :=
  match cat with
  | [] => [(id, b)]
  | kv :: rest => if kv.1 = id then (id, b) :: rest else kv :: catInsert rest id b

/-- Method `GetBookByID`: catalog lookup, `none` when the identifier is
unknown. -/
def catLookup (cat : Catalog) (id : String) : Option BookInfo :=
  (List.find? (fun kv => kv.1 = id) cat).map (·.2)

/-- One whole ingestion against the catalog: any disk failure before
parsing (modelled by `extracted = .error _`) or any parse failure
aborts with the catalog untouched; on success the completed record is
inserted under its identifier. -/
def ingestStep (parseContainer : String → Option ContainerXML)
    (parseOPF : String → Option OPFPackage)
    (extracted : Except IngestErr FS) (filename : String) (size time : Nat)
    (cat : Catalog) : Catalog × Except IngestErr BookInfo :=
  match extracted with
  | .error e => (cat, .error e)
  | .ok fs =>
    match ingestCore parseContainer parseOPF fs filename size time with
    | .error e => (cat, .error e)
    | .ok info => (catInsert cat info.id info, .ok info)

/-! ## Helper lemmas -/

theorem catLookup_catInsert_self (cat : Catalog) (id : String) (b : BookInfo) :
    catLookup (catInsert cat id b) id = some b := by
  induction cat with
  | nil => simp [catInsert, catLookup, List.find?]
  | cons kv rest ih =>
    by_cases h : kv.1 = id
    · simp [catInsert, catLookup, h, List.find?]
    · simpa [catInsert, catLookup, h, List.find?] using ih

theorem catLookup_catInsert_ne (cat : Catalog) (id id' : String) (b : BookInfo)
    (h : id' ≠ id) : catLookup (catInsert cat id b) id' = catLookup cat id' := by
  have hne : ¬(id = id') := fun hh => h hh.symm
  induction cat with
  | nil => simp [catInsert, catLookup, List.find?, hne]
  | cons kv rest ih =>
    by_cases hk : kv.1 = id
    · have hk' : ¬(kv.1 = id') := by rw [hk]; exact hne
      simp [catInsert, catLookup, hk, hk', List.find?, hne]
    · by_cases hk' : kv.1 = id'
      · simp [catInsert, catLookup, hk, hk', h, List.find?]
      · simpa [catInsert, catLookup, hk, hk', List.find?] using ih

theorem itemsByID_foldl_of_not_mem (k : String) :
    ∀ (manifest : List OPFItem) (m : String → OPFItem),
      (∀ it ∈ manifest, it.id ≠ k) →
      (manifest.foldl (fun m it => fun k' => if k' = it.id then it else m k') m) k = m k := by
  intro manifest
  induction manifest with
  | nil => intro m _; rfl
  | cons it rest ih =>
    intro m h
    have hit : it.id ≠ k := h it (List.mem_cons_self it rest)
    have hkit : ¬(k = it.id) := fun hh => hit hh.symm
    have h2 : (rest.foldl (fun m it => fun k' => if k' = it.id then it else m k')
        (fun k' => if k' = it.id then it else m k')) k = m k := by
      rw [ih (fun k' => if k' = it.id then it else m k')
        (fun x hx => h x (List.mem_cons_of_mem it hx))]
      simp [hkit]
    simpa [List.foldl_cons] using h2

/-- A missing manifest identifier looks up to the zero-value item. -/
theorem itemsByID_of_not_mem (manifest : List OPFItem) (k : String)
    (h : ∀ it ∈ manifest, it.id ≠ k) : itemsByID manifest k = ⟨"", "", ""⟩ :=
  itemsByID_foldl_of_not_mem k manifest _ h

/-- A loop that appends an entry per accepted element is a
`filterMap`. -/
theorem foldl_emit_eq_filterMap {α β : Type} (f : α → Option β)
    (g : List β → α → List β)
    (hg : ∀ acc x, g acc x = acc ++ (f x).toList) :
    ∀ (l : List α) (acc : List β), l.foldl g acc = acc ++ l.filterMap f := by
  intro l
  induction l with
  | nil => intro acc; simp
  | cons x xs ih =>
    intro acc
    rw [List.foldl_cons, ih, hg]
    cases hfx : f x <;> simp [List.filterMap_cons, hfx]

/-- The result of the length-minimizing fold is a member of the
candidates and no candidate is shorter. -/
theorem foldlMin_spec :
    ∀ (cs : List String) (c : String),
      (cs.foldl (fun best x => if x.length < best.length then x else best) c) ∈ c :: cs ∧
      ∀ x ∈ c :: cs,
        (cs.foldl (fun best x => if x.length < best.length then x else best) c).length ≤
          x.length := by
  intro cs
  induction cs with
  | nil => intro c; simp
  | cons y ys ih =>
    intro c
    rw [List.foldl_cons]
    by_cases h : y.length < c.length
    · rw [if_pos h]
      obtain ⟨hmem, hmin⟩ := ih y
      refine ⟨?_, ?_⟩
      · rcases List.mem_cons.mp hmem with h1 | h1
        · exact List.mem_cons.mpr (Or.inr (List.mem_cons.mpr (Or.inl h1)))
        · exact List.mem_cons.mpr (Or.inr (List.mem_cons.mpr (Or.inr h1)))
      · intro x hx
        rcases List.mem_cons.mp hx with h1 | h1
        · rw [h1]
          exact le_trans (hmin y (List.mem_cons_self _ _)) (le_of_lt h)
        · rcases List.mem_cons.mp h1 with h2 | h2
          · rw [h2]; exact hmin y (List.mem_cons_self _ _)
          · exact hmin x (List.mem_cons_of_mem _ h2)
    · rw [if_neg h]
      obtain ⟨hmem, hmin⟩ := ih c
      refine ⟨?_, ?_⟩
      · rcases List.mem_cons.mp hmem with h1 | h1
        · exact List.mem_cons.mpr (Or.inl h1)
        · exact List.mem_cons.mpr (Or.inr (List.mem_cons.mpr (Or.inr h1)))
      · intro x hx
        rcases List.mem_cons.mp hx with h1 | h1
        · rw [h1]; exact hmin c (List.mem_cons_self _ _)
        · rcases List.mem_cons.mp h1 with h2 | h2
          · rw [h2]
            exact le_trans (hmin c (List.mem_cons_self _ _)) (le_of_not_lt h)
          · exact hmin x (List.mem_cons_of_mem _ h2)

/-! ## Structure of normalized paths -/

/-- A path segment that survives normalization untouched: non-empty and
neither `.` nor `..`. -/
def goodSeg (s : List Char) : Prop :=
  s ≠ [] ∧ s ≠ ['.'] ∧ s ≠ ['.', '.']

/-- Invariant of the `cleanSegs` stack machine: from a stack of the
form `good ++ ['..', …]` it produces an output of the form
`['..', …] ++ good'` where `good'` holds only untouched segments, and a
rooted path keeps no leading `..`. -/
theorem cleanSegs_form (rooted : Bool) :
    ∀ (segs good : List (List Char)) (k : Nat),
      (∀ s ∈ good, goodSeg s) → (rooted = true → k = 0) →
      ∃ k' good', (∀ s ∈ good', goodSeg s) ∧ (rooted = true → k' = 0) ∧
        cleanSegs rooted segs (good ++ List.replicate k ['.', '.']) =
          List.replicate k' ['.', '.'] ++ good' := by
  intro segs
  induction segs with
  | nil =>
    intro good k hg hk
    refine ⟨k, good.reverse, fun s hs => hg s (List.mem_reverse.mp hs), hk, ?_⟩
    simp [cleanSegs, List.reverse_append, List.reverse_replicate]
  | cons seg rest ih =>
    intro good k hg hk
    by_cases h1 : seg = [] ∨ seg = ['.']
    · have hstep : cleanSegs rooted (seg :: rest) (good ++ List.replicate k ['.', '.']) =
          cleanSegs rooted rest (good ++ List.replicate k ['.', '.']) := by
        simp only [cleanSegs, if_pos h1]
      rw [hstep]
      exact ih good k hg hk
    · by_cases h2 : seg = ['.', '.']
      · subst h2
        cases good with
        | nil =>
          cases k with
          | zero =>
            rcases Bool.eq_false_or_eq_true rooted with hr | hr
            · subst hr
              have hstep : cleanSegs true (['.', '.'] :: rest)
                  (([] : List (List Char)) ++ List.replicate 0 ['.', '.']) =
                  cleanSegs true rest
                    (([] : List (List Char)) ++ List.replicate 0 ['.', '.']) := by
                simp [cleanSegs]
              rw [hstep]
              exact ih [] 0 (fun s hs => absurd hs (List.not_mem_nil s)) (fun _ => rfl)
            · subst hr
              have hstep : cleanSegs false (['.', '.'] :: rest)
                  (([] : List (List Char)) ++ List.replicate 0 ['.', '.']) =
                  cleanSegs false rest
                    (([] : List (List Char)) ++ List.replicate 1 ['.', '.']) := by
                simp [cleanSegs]
              rw [hstep]
              exact ih [] 1 (fun s hs => absurd hs (List.not_mem_nil s))
                (fun h => nomatch h)
          | succ j =>
            have hr : rooted = false := by
              rcases Bool.eq_false_or_eq_true rooted with h | h
              · exact absurd (hk h) (Nat.succ_ne_zero j)
              · exact h
            have hstep : cleanSegs rooted (['.', '.'] :: rest)
                (([] : List (List Char)) ++ List.replicate (j + 1) ['.', '.']) =
                cleanSegs rooted rest
                  (([] : List (List Char)) ++ List.replicate (j + 2) ['.', '.']) := by
              simp [cleanSegs, List.replicate_succ]
            rw [hstep]
            exact ih [] (j + 2) (fun s hs => absurd hs (List.not_mem_nil s))
              (fun h => absurd (hr ▸ h) (by simp))
        | cons g gs =>
          have hgg : goodSeg g := hg g (List.mem_cons_self g gs)
          have hstep : cleanSegs rooted (['.', '.'] :: rest)
              ((g :: gs) ++ List.replicate k ['.', '.']) =
              cleanSegs rooted rest (gs ++ List.replicate k ['.', '.']) := by
            simp [cleanSegs, List.cons_append, hgg.2.2]
          rw [hstep]
          exact ih gs k (fun s hs => hg s (List.mem_cons_of_mem g hs)) hk
      · have hgseg : goodSeg seg :=
          ⟨fun h => h1 (Or.inl h), fun h => h1 (Or.inr h), h2⟩
        have hstep : cleanSegs rooted (seg :: rest) (good ++ List.replicate k ['.', '.']) =
            cleanSegs rooted rest ((seg :: good) ++ List.replicate k ['.', '.']) := by
          simp only [cleanSegs, if_neg h1, if_neg h2, List.cons_append]
        rw [hstep]
        refine ih (seg :: good) k ?_ hk
        intro s hs
        rcases List.mem_cons.mp hs with h | h
        · rw [h]; exact hgseg
        · exact hg s h

/-- Every normalized segment list is a run of leading `..` segments
followed by untouched segments, with no leading `..` for rooted
paths. -/
theorem cleanParts_form (p : String) :
    ∃ k good, (∀ s ∈ good, goodSeg s) ∧ (isRooted p = true → k = 0) ∧
      cleanParts p = List.replicate k ['.', '.'] ++ good := by
  obtain ⟨k, good, hgood, hk, heq⟩ :=
    cleanSegs_form (isRooted p) (splitOnChar '/' p.data) [] 0
      (fun s hs => absurd hs (List.not_mem_nil s)) (fun _ => rfl)
  exact ⟨k, good, hgood, hk, by simpa [cleanParts] using heq⟩

theorem joinSegs_ne_nil (s : List Char) (rest : List (List Char)) (h : s ≠ []) :
    joinSegs (s :: rest) ≠ [] := by
  cases rest with
  | nil => simpa [joinSegs] using h
  | cons t ts => simp [joinSegs]

/-- Go `path.Clean` never returns the empty string. -/
theorem pathClean_ne_empty (p : String) : pathClean p ≠ "" := by
  by_cases hp : p = ""
  · simp [pathClean, hp]
  · rw [pathClean, if_neg hp]
    obtain ⟨k, good, hgood, _, heq⟩ := cleanParts_form p
    rw [renderClean]
    by_cases hr : isRooted p = true
    · rw [if_pos hr]
      intro h
      have := congrArg String.data h
      simp at this
    · rw [if_neg hr]
      by_cases ho : cleanParts p = []
      · rw [if_pos ho]; intro h; simpa using congrArg String.data h
      · rw [if_neg ho]
        intro h
        have hdata : joinSegs (cleanParts p) = [] := by
          simpa using congrArg String.data h
        rcases hcp : cleanParts p with _ | ⟨s, srest⟩
        · exact ho hcp
        · have hs : s ≠ [] := by
            rw [hcp] at heq
            cases k with
            | zero =>
              simp at heq
              have : s ∈ good := by rw [← heq]; exact List.mem_cons_self s srest
              exact (hgood s this).1
            | succ j =>
              rw [List.replicate_succ] at heq
              have : s = ['.', '.'] := by
                have h3 := congrArg (fun l => l.headD ([] : List Char)) heq
                simpa using h3
              rw [this]; simp
          rw [hcp] at hdata
          exact joinSegs_ne_nil s srest hs hdata

/-! ## Shape of generated identifiers -/

theorem beBytes_length (k n : Nat) : (beBytes k n).length = k := by
  simp [beBytes]

theorem sha1Bytes_length (msg : List Nat) : (sha1Bytes msg).length = 20 := by
  simp [sha1Bytes, beBytes]

theorem hexChars_length (l : List Nat) : (hexChars l).length = 2 * l.length := by
  induction l with
  | nil => simp [hexChars]
  | cons b rest ih => simp [hexChars, ih]; omega

theorem hexDigitChar_mem (n : Nat) : hexDigitChar n ∈ "0123456789abcdef".data := by
  rcases Nat.lt_or_ge n 16 with h | h
  · interval_cases n <;> decide
  · have hlen : ("0123456789abcdef".data).length = 16 := by decide
    rw [hexDigitChar, List.getD_eq_default]
    · decide
    · omega

theorem hexChars_mem (l : List Nat) : ∀ c ∈ hexChars l, c ∈ "0123456789abcdef".data := by
  induction l with
  | nil => simp [hexChars]
  | cons b rest ih =>
    intro c hc
    rcases List.mem_cons.mp hc with h | hc2
    · rw [h]; exact hexDigitChar_mem _
    · rcases List.mem_cons.mp hc2 with h | h
      · rw [h]; exact hexDigitChar_mem _
      · exact ih c h

/-! ## extractNav as a per-line filter -/

theorem extractNav_body_eq (acc : List NavItem) (x : String) :
    (let l := goTrimSpace x
     if !strContains l "<a " then acc
     else
       let href := between l "href=\"" "\""
       let text := stripTags l
       if href ≠ "" ∧ text ≠ "" then acc ++ [⟨href, text⟩] else acc) =
    acc ++ (lineEntry x).toList := by
  simp only [lineEntry]
  cases hb : strContains (goTrimSpace x) "<a "
  · simp [hb]
  · by_cases hcond : between (goTrimSpace x) "href=\"" "\"" ≠ "" ∧
        stripTags (goTrimSpace x) ≠ ""
    · simp [hb, hcond]
    · simp [hb, hcond]

/-- The navigation scan is an order-preserving per-line filter. -/
theorem extractNav_eq_filterMap (t : String) :
    extractNav t = ((splitOnChar '\n' t.data).map String.mk).filterMap lineEntry := by
  rw [extractNav,
    foldl_emit_eq_filterMap lineEntry _ (fun acc x => extractNav_body_eq acc x)]
  simp

/-! ## Inversion of the ingestion pipeline -/

instance {ε α : Type} [DecidableEq ε] [DecidableEq α] : DecidableEq (Except ε α)
  | .ok a, .ok b =>
    if h : a = b then isTrue (by rw [h]) else isFalse (by simp [h])
  | .ok _, .error _ => isFalse (by simp)
  | .error _, .ok _ => isFalse (by simp)
  | .error a, .error b =>
    if h : a = b then isTrue (by rw [h]) else isFalse (by simp [h])

/-- Successful ingestion is exactly: rootfile located, package document
readable and parseable, record equal to the completed `builtInfo`. -/
theorem ingestCore_ok_iff (pc : String → Option ContainerXML)
    (po : String → Option OPFPackage) (fs : FS) (fn : String) (sz t : Nat)
    (info : BookInfo) :
    ingestCore pc po fs fn sz t = .ok info ↔
    ∃ rf d p, findRootfile fs pc = .ok rf ∧ fs.read rf = some d ∧
      po d = some p ∧ info = builtInfo fs fn sz t rf p := by
  constructor
  · intro h
    cases hrf : findRootfile fs pc with
    | error e => simp [ingestCore, hrf, Bind.bind, Except.bind] at h
    | ok rf =>
      cases hrd : fs.read rf with
      | none => simp [ingestCore, hrf, hrd, Bind.bind, Except.bind] at h
      | some d =>
        cases hpo : po d with
        | none => simp [ingestCore, hrf, hrd, hpo, Bind.bind, Except.bind] at h
        | some p =>
          refine ⟨rf, d, p, rfl, hrd, hpo, ?_⟩
          simp [ingestCore, hrf, hrd, hpo, Bind.bind, Except.bind] at h
          exact h.symm
  · rintro ⟨rf, d, p, h1, h2, h3, h4⟩
    simp [ingestCore, h1, h2, h3, h4, Bind.bind, Except.bind]

/-! ## Concrete fixtures used by the claim instances

`scenario…` is the end-to-end archive of the specification: container
pointing at `OEBPS/content.opf`, a two-item manifest, a one-entry
spine, and a one-line `nav.xhtml`.  The two parse functions return
exactly what Go `encoding/xml` produces on these documents.  `tiny…` is
a minimal successfully-ingesting archive with an empty manifest. -/

def scenarioContainer : String :=
  "<?xml version=\"1.0\"?><container><rootfiles><rootfile full-path=\"OEBPS/content.opf\"/></rootfiles></container>"

def scenarioOPF : String :=
  "<package><metadata><dc:title>My Book</dc:title><dc:creator>An Author</dc:creator></metadata><manifest><item id=\"c1\" href=\"chap1.xhtml\" media-type=\"application/xhtml+xml\"/><item id=\"nav\" href=\"nav.xhtml\" media-type=\"application/xhtml+xml\"/></manifest><spine><itemref idref=\"c1\"/></spine></package>"

def scenarioNav : String := "<a href=\"chap1.xhtml\">Chapter 1</a>"

def scenarioPackage : OPFPackage :=
  ⟨⟨"My Book", "An Author"⟩,
   [⟨"c1", "chap1.xhtml", "application/xhtml+xml"⟩,
    ⟨"nav", "nav.xhtml", "application/xhtml+xml"⟩],
   [⟨"c1"⟩]⟩

def scenarioParseContainer : String → Option ContainerXML :=
  fun s => if s = scenarioContainer then some ⟨["OEBPS/content.opf"]⟩ else none

def scenarioParseOPF : String → Option OPFPackage :=
  fun s => if s = scenarioOPF then some scenarioPackage else none

def scenarioFS : FS :=
  ⟨[("META-INF/container.xml", scenarioContainer),
    ("OEBPS/content.opf", scenarioOPF),
    ("OEBPS/nav.xhtml", scenarioNav),
    ("OEBPS/chap1.xhtml", "<html><body>Hello.</body></html>")]⟩

def tinyPackage : OPFPackage := ⟨⟨"t", "c"⟩, [], []⟩

def tinyParseContainer : String → Option ContainerXML := fun _ => some ⟨["p"]⟩

def tinyParseOPF : String → Option OPFPackage := fun _ => some tinyPackage

def tinyFS : FS := ⟨[("META-INF/container.xml", "x"), ("p", "o")]⟩

/-- The record that ingesting the `tiny` archive catalogs. -/
def tinyInfo (fn : String) (sz t : Nat) : BookInfo :=
  ⟨idOf fn sz t, "t", "c", "p", tinyPackage, []⟩

example : ingestCore tinyParseContainer tinyParseOPF tinyFS "f" 0 0 =
    .ok (tinyInfo "f" 0 0) := by decide

/-! ## Claims -/

/-- C5: for every successfully ingested archive, the cataloged record's
title and author are the package document's Dublin-Core title/creator
texts trimmed of surrounding whitespace; when both elements are absent
(the unmarshalled zero values, `dcMetadataOf none none`), the fields
are empty strings and ingestion still succeeds. -/
theorem C5_metadata_trimmed (pc : String → Option ContainerXML)
    (po : String → Option OPFPackage) (fs : FS) (fn : String) (sz t : Nat)
    (rf d : String) (p : OPFPackage) :
    findRootfile fs pc = .ok rf → fs.read rf = some d → po d = some p →
    ∃ info, ingestCore pc po fs fn sz t = .ok info ∧
      info.title = goTrimSpace p.meta.title ∧
      info.author = goTrimSpace p.meta.creator ∧
      (p.meta = dcMetadataOf none none → info.title = "" ∧ info.author = "") := by
  intro h1 h2 h3
  have hts : goTrimSpace "" = "" := by decide
  refine ⟨builtInfo fs fn sz t rf p,
    (ingestCore_ok_iff pc po fs fn sz t _).mpr ⟨rf, d, p, h1, h2, h3, rfl⟩,
    rfl, rfl, ?_⟩
  intro hm
  constructor
  · show goTrimSpace p.meta.title = ""
    rw [hm]; exact hts
  · show goTrimSpace p.meta.creator = ""
    rw [hm]; exact hts

/-- A package document whose metadata carries surrounding whitespace. -/
def trimPackage : OPFPackage := ⟨⟨"  Trimmed Title  ", " An Author "⟩, [], []⟩

def trimParseOPF : String → Option OPFPackage := fun _ => some trimPackage

theorem C5_witness :
    ∃ info, ingestCore tinyParseContainer trimParseOPF tinyFS "f" 0 0 = .ok info ∧
      info.title = goTrimSpace trimPackage.meta.title ∧
      info.author = goTrimSpace trimPackage.meta.creator ∧
      (trimPackage.meta = dcMetadataOf none none →
        info.title = "" ∧ info.author = "") :=
  C5_metadata_trimmed tinyParseContainer trimParseOPF tinyFS "f" 0 0 "p" "o"
    trimPackage rfl rfl rfl

/-- C6: the path resolver is a pure function; an empty relative
reference returns the base unchanged, and a non-empty one returns the
cleaned join, whose normalized segment list collapses every `.` segment
and every collapsible `..` segment: what remains is a (relative-only)
leading run of `..` followed by ordinary segments. -/
theorem C6_path_resolver (base rel : String) :
    (rel = "" → normJoin base rel = base) ∧
    (rel ≠ "" →
      normJoin base rel = pathClean (pathJoin2 base rel) ∧
      ∃ k good, (∀ s ∈ good, goodSeg s) ∧
        (isRooted (pathJoin2 base rel) = true → k = 0) ∧
        cleanParts (pathJoin2 base rel) = List.replicate k ['.', '.'] ++ good ∧
        normJoin base rel =
          renderClean (isRooted (pathJoin2 base rel))
            (List.replicate k ['.', '.'] ++ good)) := by
  constructor
  · intro h; simp [normJoin, h]
  · intro h
    have h1 : normJoin base rel = pathClean (pathJoin2 base rel) := by
      simp [normJoin, h]
    have hq : pathJoin2 base rel ≠ "" := by
      by_cases hb : base = ""
      · rw [pathJoin2, if_neg (fun hc => h hc.2), if_pos hb]
        exact pathClean_ne_empty rel
      · rw [pathJoin2, if_neg (fun hc => hb hc.1), if_neg hb]
        exact pathClean_ne_empty _
    obtain ⟨k, good, hg, hk, heq⟩ := cleanParts_form (pathJoin2 base rel)
    refine ⟨h1, k, good, hg, hk, heq, ?_⟩
    rw [h1, pathClean, if_neg hq, heq]

theorem C6_witness :
    (normJoin "OEBPS" "" = "OEBPS") ∧
    (normJoin "OEBPS" "../a/./b" = pathClean (pathJoin2 "OEBPS" "../a/./b") ∧
      ∃ k good, (∀ s ∈ good, goodSeg s) ∧
        (isRooted (pathJoin2 "OEBPS" "../a/./b") = true → k = 0) ∧
        cleanParts (pathJoin2 "OEBPS" "../a/./b") =
          List.replicate k ['.', '.'] ++ good ∧
        normJoin "OEBPS" "../a/./b" =
          renderClean (isRooted (pathJoin2 "OEBPS" "../a/./b"))
            (List.replicate k ['.', '.'] ++ good)) :=
  ⟨(C6_path_resolver "OEBPS" "").1 rfl,
   (C6_path_resolver "OEBPS" "../a/./b").2 (by decide)⟩

/-- C7: ingestion is atomic with respect to the catalog: every failure
(disk, container, or package parsing) leaves the catalog unchanged, and
a successful ingestion inserts exactly the completed record — which is
then visible under its identifier — only after the whole pipeline has
produced it. -/
theorem C7_ingest_atomicity (pc : String → Option ContainerXML)
    (po : String → Option OPFPackage) (ex : Except IngestErr FS)
    (fn : String) (sz t : Nat) (cat : Catalog) :
    (∀ e, (ingestStep pc po ex fn sz t cat).2 = .error e →
      (ingestStep pc po ex fn sz t cat).1 = cat) ∧
    (∀ info, (ingestStep pc po ex fn sz t cat).2 = .ok info →
      (∃ fs, ex = .ok fs ∧ ingestCore pc po fs fn sz t = .ok info) ∧
      (ingestStep pc po ex fn sz t cat).1 = catInsert cat info.id info ∧
      catLookup (ingestStep pc po ex fn sz t cat).1 info.id = some info) := by
  cases ex with
  | error e0 =>
    refine ⟨fun e _ => rfl, fun info h => ?_⟩
    simp [ingestStep] at h
  | ok fs =>
    cases hcore : ingestCore pc po fs fn sz t with
    | error e0 =>
      refine ⟨fun e _ => by simp [ingestStep, hcore], fun info h => ?_⟩
      simp [ingestStep, hcore] at h
    | ok info0 =>
      refine ⟨fun e h => ?_, fun info h => ?_⟩
      · simp [ingestStep, hcore] at h
      · have heq : info0 = info := by
          have h2 : (Except.ok info0 : Except IngestErr BookInfo) = .ok info := by
            simpa [ingestStep, hcore] using h
          exact Except.ok.inj h2
        subst heq
        exact ⟨⟨fs, rfl, hcore⟩, by simp [ingestStep, hcore],
          by simp [ingestStep, hcore, catLookup_catInsert_self]⟩

theorem C7_witness :
    (ingestStep tinyParseContainer tinyParseOPF (.error .ioErr) "f" 0 0 []).1 = [] ∧
    catLookup (ingestStep tinyParseContainer tinyParseOPF (.ok tinyFS) "f" 0 0 []).1
      (tinyInfo "f" 0 0).id = some (tinyInfo "f" 0 0) :=
  ⟨(C7_ingest_atomicity tinyParseContainer tinyParseOPF (.error .ioErr)
      "f" 0 0 []).1 .ioErr rfl,
   ((C7_ingest_atomicity tinyParseContainer tinyParseOPF (.ok tinyFS)
      "f" 0 0 []).2 (tinyInfo "f" 0 0) (by decide)).2.2⟩

/-- C8: the container locator reads `META-INF/container.xml`, errors
when the file is unreadable, when XML parsing fails, or when no
rootfile is declared, and otherwise returns the full-path of the first
declared rootfile, ignoring all later rootfile entries. -/
theorem C8_container_locator (fs : FS) (pc : String → Option ContainerXML) :
    (fs.read "META-INF/container.xml" = none →
      findRootfile fs pc = .error .missingContainer) ∧
    (∀ d, fs.read "META-INF/container.xml" = some d → pc d = none →
      findRootfile fs pc = .error .malformedContainer) ∧
    (∀ d c, fs.read "META-INF/container.xml" = some d → pc d = some c →
      c.rootfiles = [] → findRootfile fs pc = .error .noRootfile) ∧
    (∀ d c r rs, fs.read "META-INF/container.xml" = some d → pc d = some c →
      c.rootfiles = r :: rs → findRootfile fs pc = .ok r) := by
  refine ⟨?_, ?_, ?_, ?_⟩
  · intro h; simp [findRootfile, h]
  · intro d h1 h2; simp [findRootfile, h1, h2]
  · intro d c h1 h2 h3; simp [findRootfile, h1, h2, h3]
  · intro d c r rs h1 h2 h3; simp [findRootfile, h1, h2, h3]

/-- An extracted tree with no container descriptor. -/
def noContainerFS : FS := ⟨[]⟩

theorem C8_witness :
    findRootfile noContainerFS tinyParseContainer = .error .missingContainer ∧
    findRootfile tinyFS (fun _ => none) = .error .malformedContainer ∧
    findRootfile tinyFS (fun _ => some ⟨[]⟩) = .error .noRootfile ∧
    findRootfile tinyFS (fun _ => some ⟨["a", "b"]⟩) = .ok "a" :=
  ⟨(C8_container_locator noContainerFS tinyParseContainer).1 (by decide),
   (C8_container_locator tinyFS (fun _ => none)).2.1 "x" (by decide) rfl,
   (C8_container_locator tinyFS (fun _ => some ⟨[]⟩)).2.2.1 "x" ⟨[]⟩
     (by decide) rfl rfl,
   (C8_container_locator tinyFS (fun _ => some ⟨["a", "b"]⟩)).2.2.2 "x"
     ⟨["a", "b"]⟩ "a" ["b"] (by decide) rfl rfl⟩

/-- C10: every generated book identifier is exactly 12 characters long
and consists only of lowercase hexadecimal digits, for every filename,
size, and ingestion time. -/
theorem C10_identifier_shape (fn : String) (sz t : Nat) :
    (idOf fn sz t).length = 12 ∧
    ∀ c ∈ (idOf fn sz t).data, c ∈ "0123456789abcdef".data := by
  constructor
  · have h1 : (hexChars (sha1Bytes
        (utf8Bytes (fn ++ "-" ++ toString sz ++ "-" ++ toString t)))).length = 40 := by
      rw [hexChars_length, sha1Bytes_length]
    simp [idOf, String.length, List.length_take, h1]
  · intro c hc
    have hc2 : c ∈ (hexChars (sha1Bytes
        (utf8Bytes (fn ++ "-" ++ toString sz ++ "-" ++ toString t)))).take 12 := by
      simpa [idOf] using hc
    exact hexChars_mem _ c (List.take_subset _ _ hc2)

theorem C10_witness :
    (idOf "a" 0 0).length = 12 ∧ '5' ∈ "0123456789abcdef".data :=
  ⟨(C10_identifier_shape "a" 0 0).1,
   (C10_identifier_shape "a" 0 0).2 '5' (by decide)⟩

/-- A cataloged record whose spine references a manifest identifier
that does not exist. -/
def danglingBook : BookInfo :=
  ⟨"b1", "", "", "OEBPS/content.opf", ⟨⟨"", ""⟩, [], [⟨"ghost"⟩]⟩, []⟩

/-- C2 counterexample: the spine row produced for a dangling spine
reference has `href = "OEBPS"` (the package document's directory), not
the empty href the claim states. -/
theorem C2_counterexample :
    getSpine danglingBook = [⟨"ghost", "OEBPS", "", ""⟩] ∧
    ¬ (∀ r ∈ getSpine danglingBook, r.href = "") := by decide

/-- C2 (amended): a spine entry whose idref matches no manifest item
yields a row with empty media type and with href equal to the package
document's directory (the zero-value item's empty href resolves to the
base unchanged), and such entries never make ingestion fail. -/
theorem C2_dangling_spine_entry (b : BookInfo) (sp : OPFItemref) :
    (∀ it ∈ b.opf.manifest, it.id ≠ sp.idref) →
    (spineRow b sp = ⟨sp.idref, pathDir b.rootFile, "", ""⟩ ∧
      (sp ∈ b.opf.spine →
        (⟨sp.idref, pathDir b.rootFile, "", ""⟩ : SpineItem) ∈ getSpine b)) ∧
    (∀ pc po fs fn sz t rf d p, findRootfile fs pc = .ok rf →
      fs.read rf = some d → po d = some p →
      (ingestCore pc po fs fn sz t).isOk = true) := by
  intro h
  have hrow : spineRow b sp = ⟨sp.idref, pathDir b.rootFile, "", ""⟩ := by
    simp [spineRow, itemsByID_of_not_mem _ _ h, normJoin]
  refine ⟨⟨hrow, fun hm => ?_⟩, ?_⟩
  · rw [getSpine, ← hrow]
    exact List.mem_map_of_mem (spineRow b) hm
  · intro pc po fs fn sz t rf d p h1 h2 h3
    have hok : ingestCore pc po fs fn sz t = .ok (builtInfo fs fn sz t rf p) :=
      (ingestCore_ok_iff pc po fs fn sz t _).mpr ⟨rf, d, p, h1, h2, h3, rfl⟩
    rw [hok]; rfl

theorem C2_witness :
    spineRow danglingBook ⟨"ghost"⟩ = ⟨"ghost", "OEBPS", "", ""⟩ ∧
    (ingestCore tinyParseContainer tinyParseOPF tinyFS "f" 0 0).isOk = true :=
  ⟨((C2_dangling_spine_entry danglingBook ⟨"ghost"⟩ (by decide)).1).1,
   (C2_dangling_spine_entry danglingBook ⟨"ghost"⟩ (by decide)).2
     tinyParseContainer tinyParseOPF tinyFS "f" 0 0 "p" "o" tinyPackage
     rfl rfl rfl⟩

/-- C3: the TOC extraction processes the text line by line and is an
order-preserving per-line filter; on each (trimmed) line containing
`"<a "` it extracts the first `href="…"` value and the tag-stripped,
NBSP-normalized, whitespace-trimmed visible text, and emits the pair
exactly when both are non-empty. -/
theorem C3_nav_line_scan (t : String) :
    extractNav t = ((splitOnChar '\n' t.data).map String.mk).filterMap lineEntry ∧
    ∀ line : String,
      ((∃ e, lineEntry line = some e) ↔
        (strContains (goTrimSpace line) "<a " = true ∧
         between (goTrimSpace line) "href=\"" "\"" ≠ "" ∧
         stripTags (goTrimSpace line) ≠ "")) ∧
      (∀ e, lineEntry line = some e →
        e = ⟨between (goTrimSpace line) "href=\"" "\"",
             stripTags (goTrimSpace line)⟩) := by
  refine ⟨extractNav_eq_filterMap t, fun line => ?_⟩
  cases hb : strContains (goTrimSpace line) "<a "
  · refine ⟨?_, ?_⟩
    · simp [lineEntry, hb]
    · intro e he; simp [lineEntry, hb] at he
  · by_cases h1 : between (goTrimSpace line) "href=\"" "\"" ≠ ""
    · by_cases h2 : stripTags (goTrimSpace line) ≠ ""
      · refine ⟨?_, ?_⟩
        · simp [lineEntry, hb, h1, h2]
        · intro e he
          have h3 : some (⟨between (goTrimSpace line) "href=\"" "\"",
              stripTags (goTrimSpace line)⟩ : NavItem) = some e := by
            rw [← he]; simp [lineEntry, hb, h1, h2]
          exact (Option.some.inj h3).symm
      · refine ⟨?_, ?_⟩
        · simp [lineEntry, hb, h1, h2]
        · intro e he; simp [lineEntry, hb, h1, h2] at he
    · refine ⟨?_, ?_⟩
      · simp [lineEntry, hb, h1]
      · intro e he; simp [lineEntry, hb, h1] at he

theorem C3_witness :
    extractNav "<a href=\"x.xhtml\">X</a>" =
      ((splitOnChar '\n' ("<a href=\"x.xhtml\">X</a>" : String).data).map
        String.mk).filterMap lineEntry ∧
    ∃ e, lineEntry "<a href=\"x.xhtml\">X</a>" = some e :=
  ⟨(C3_nav_line_scan "<a href=\"x.xhtml\">X</a>").1,
   (((C3_nav_line_scan "<a href=\"x.xhtml\">X</a>").2
      "<a href=\"x.xhtml\">X</a>").1).mpr ⟨by decide, by decide, by decide⟩⟩

/-- C4: the navigation-document selection returns a manifest href
containing `"nav"` or `"toc"` (case-sensitive) of minimal length among
all such candidates; when no manifest href contains either substring it
returns the empty marker and the ingested record's TOC is the empty
list, with no error. -/
theorem C4_nav_selection (p : OPFPackage) :
    (findNavItem p ≠ "" →
      (∃ it ∈ p.manifest, it.href = findNavItem p ∧
        (strContains it.href "nav" || strContains it.href "toc") = true) ∧
      (∀ it ∈ p.manifest,
        (strContains it.href "nav" || strContains it.href "toc") = true →
        (findNavItem p).length ≤ it.href.length)) ∧
    ((∀ it ∈ p.manifest,
        (strContains it.href "nav" || strContains it.href "toc") = false) →
      findNavItem p = "") ∧
    (∀ pc po fs fn sz t info, ingestCore pc po fs fn sz t = .ok info →
      findNavItem info.opf = "" → info.toc = []) := by
  have hunfold : findNavItem p =
      match p.manifest.filterMap (fun it =>
        if strContains it.href "nav" || strContains it.href "toc" then some it.href
        else none) with
      | [] => ""
      | c :: cs =>
        cs.foldl (fun best x => if x.length < best.length then x else best) c := rfl
  have hchar : ∀ x : String,
      (x ∈ p.manifest.filterMap (fun it =>
        if strContains it.href "nav" || strContains it.href "toc" then some it.href
        else none)) ↔
      ∃ it ∈ p.manifest, it.href = x ∧
        (strContains it.href "nav" || strContains it.href "toc") = true := by
    intro x
    rw [List.mem_filterMap]
    constructor
    · rintro ⟨it, hmem, hf⟩
      by_cases hc : (strContains it.href "nav" || strContains it.href "toc") = true
      · rw [if_pos hc] at hf
        exact ⟨it, hmem, Option.some.inj hf, hc⟩
      · rw [if_neg hc] at hf; cases hf
    · rintro ⟨it, hmem, hx, hc⟩
      exact ⟨it, hmem, by rw [if_pos hc, hx]⟩
  refine ⟨?_, ?_, ?_⟩
  · intro hne
    cases hcands : p.manifest.filterMap (fun it =>
        if strContains it.href "nav" || strContains it.href "toc" then some it.href
        else none) with
    | nil => exact absurd (by rw [hunfold, hcands]) hne
    | cons c cs =>
      have hfn : findNavItem p =
          cs.foldl (fun best x => if x.length < best.length then x else best) c := by
        rw [hunfold, hcands]
      obtain ⟨hmem, hmin⟩ := foldlMin_spec cs c
      refine ⟨?_, ?_⟩
      · have hin : findNavItem p ∈ c :: cs := by rw [hfn]; exact hmem
        rw [← hcands] at hin
        exact (hchar _).mp hin
      · intro it hmem2 hc2
        have hx : it.href ∈ c :: cs := by
          rw [← hcands]
          exact (hchar it.href).mpr ⟨it, hmem2, rfl, hc2⟩
        rw [hfn]
        exact hmin it.href hx
  · intro hall
    have hnil : p.manifest.filterMap (fun it =>
        if strContains it.href "nav" || strContains it.href "toc" then some it.href
        else none) = [] :=
      List.filterMap_eq_nil_iff.mpr (fun it hmem => by simp [hall it hmem])
    rw [hunfold, hnil]
  · intro pc po fs fn sz t info h hnav
    obtain ⟨rf, d, p', h1, h2, h3, h4⟩ :=
      (ingestCore_ok_iff pc po fs fn sz t info).mp h
    subst h4
    have hn : findNavItem p' = "" := hnav
    simp [builtInfo, hn]

theorem C4_witness :
    ((∃ it ∈ scenarioPackage.manifest, it.href = findNavItem scenarioPackage ∧
        (strContains it.href "nav" || strContains it.href "toc") = true) ∧
      (∀ it ∈ scenarioPackage.manifest,
        (strContains it.href "nav" || strContains it.href "toc") = true →
        (findNavItem scenarioPackage).length ≤ it.href.length)) ∧
    findNavItem tinyPackage = "" ∧
    (tinyInfo "f" 0 0).toc = [] :=
  ⟨(C4_nav_selection scenarioPackage).1 (by decide),
   (C4_nav_selection tinyPackage).2.1 (by decide),
   (C4_nav_selection tinyPackage).2.2 tinyParseContainer tinyParseOPF tinyFS
     "f" 0 0 (tinyInfo "f" 0 0) (by decide) (by decide)⟩

/-- C1 (evaluation of the code at the claim's own scenario): on the
end-to-end archive — container pointing at `OEBPS/content.opf`,
manifest items `c1 ↦ chap1.xhtml` and `nav ↦ nav.xhtml`, spine
`[c1]`, nav line `<a href="chap1.xhtml">Chapter 1</a>` — the spine
read operation returns the archive-root-resolved
`OEBPS/chap1.xhtml` as claimed, but the TOC read operation returns the
href exactly as authored in the navigation document, `chap1.xhtml`,
never resolved against the package directory; the claimed
`toc = [(OEBPS/chap1.xhtml, Chapter 1)]` does not hold. -/
theorem C1_toc_href_unresolved :
    (ingestCore scenarioParseContainer scenarioParseOPF scenarioFS
        "book.epub" 12345 1760212345000000000).map
      (fun info => (getSpine info, info.toc)) =
    Except.ok
      ([⟨"c1", "OEBPS/chap1.xhtml", "application/xhtml+xml", ""⟩],
       [⟨"chap1.xhtml", "Chapter 1"⟩]) ∧
    (⟨"chap1.xhtml", "Chapter 1"⟩ : NavItem) ≠
      ⟨"OEBPS/chap1.xhtml", "Chapter 1"⟩ := by
  refine ⟨by decide, by decide⟩

/-- C9 counterexample: two sequential ingestions of byte-identical
uploads (same filename `book.epub` and size 123456, nanosecond
timestamps 1.66 ms apart) generate the SAME book identifier — the
12-character truncation of SHA-1 collides on these two inputs — so the
claimed unconditional distinctness of sequential identifiers is false
(and the second catalog insert would overwrite the first). -/
theorem C9_counterexample :
    (ingestCore scenarioParseContainer scenarioParseOPF scenarioFS
        "book.epub" 123456 1760212345029317977).map (fun i => i.id) =
    (ingestCore scenarioParseContainer scenarioParseOPF scenarioFS
        "book.epub" 123456 1760212345030973480).map (fun i => i.id) ∧
    (1760212345029317977 : Nat) ≠ 1760212345030973480 := by
  refine ⟨by decide, by decide⟩

/-- C9 (amended): the identifier is derived from the upload's filename,
size, and ingestion time only, never from archive content — ingestions
with identical upload metadata get identical identifiers regardless of
content — and whenever two ingestions' identifiers do differ (i.e. the
truncated digests differ), each book is independently retrievable under
its own identifier after both inserts. -/
theorem C9_id_derivation (pc pc' : String → Option ContainerXML)
    (po po' : String → Option OPFPackage) (fs fs' : FS) (fn fn' : String)
    (sz sz' t t' : Nat) (cat : Catalog) (info info' : BookInfo) :
    (ingestCore pc po fs fn sz t = .ok info → info.id = idOf fn sz t) ∧
    (ingestCore pc po fs fn sz t = .ok info →
      ingestCore pc' po' fs' fn sz t = .ok info' → info.id = info'.id) ∧
    (ingestCore pc po fs fn sz t = .ok info →
      ingestCore pc' po' fs' fn' sz' t' = .ok info' → info.id ≠ info'.id →
      catLookup (catInsert (catInsert cat info.id info) info'.id info') info.id =
        some info ∧
      catLookup (catInsert (catInsert cat info.id info) info'.id info') info'.id =
        some info') := by
  have hid : ∀ (pc0 : String → Option ContainerXML)
      (po0 : String → Option OPFPackage) (fs0 : FS) (i : BookInfo),
      ingestCore pc0 po0 fs0 fn sz t = .ok i → i.id = idOf fn sz t := by
    intro pc0 po0 fs0 i h
    obtain ⟨rf, d, p, _, _, _, h4⟩ := (ingestCore_ok_iff pc0 po0 fs0 fn sz t i).mp h
    rw [h4]; rfl
  refine ⟨hid pc po fs info, ?_, ?_⟩
  · intro h h'
    rw [hid pc po fs info h, hid pc' po' fs' info' h']
  · intro _ _ hne
    refine ⟨?_, catLookup_catInsert_self _ _ _⟩
    rw [catLookup_catInsert_ne (catInsert cat info.id info) info'.id info.id
      info' hne]
    exact catLookup_catInsert_self _ _ _

theorem C9_witness :
    (tinyInfo "f" 0 0).id =
      (builtInfo scenarioFS "f" 0 0 "OEBPS/content.opf" scenarioPackage).id ∧
    (catLookup (catInsert (catInsert [] (tinyInfo "a" 0 0).id (tinyInfo "a" 0 0))
        (tinyInfo "b" 0 0).id (tinyInfo "b" 0 0)) (tinyInfo "a" 0 0).id =
      some (tinyInfo "a" 0 0) ∧
     catLookup (catInsert (catInsert [] (tinyInfo "a" 0 0).id (tinyInfo "a" 0 0))
        (tinyInfo "b" 0 0).id (tinyInfo "b" 0 0)) (tinyInfo "b" 0 0).id =
      some (tinyInfo "b" 0 0)) :=
  ⟨(C9_id_derivation tinyParseContainer scenarioParseContainer tinyParseOPF
      scenarioParseOPF tinyFS scenarioFS "f" "g" 0 7 0 7 [] (tinyInfo "f" 0 0)
      (builtInfo scenarioFS "f" 0 0 "OEBPS/content.opf" scenarioPackage)).2.1
      (by decide) (by decide),
   (C9_id_derivation tinyParseContainer tinyParseContainer tinyParseOPF
      tinyParseOPF tinyFS tinyFS "a" "b" 0 0 0 0 [] (tinyInfo "a" 0 0)
      (tinyInfo "b" 0 0)).2.2 (by decide) (by decide) (by decide)⟩

end EpubReader
